import Mathlib

/-!
Shallow embedding of the FindDuplicate program (package `process` in
`src/main.go`): the `Options` worker-budget structure, the duplicate
aggregator `StartDuplicateFind`, and the directory walker
`StartContentChanges`, together with theorems about the frozen claims.

Conventions of the embedding:
* Go `int16` fields are modelled as `Int` with an explicit two's-complement
  wrap (`int16wrap`) applied wherever the Go code performs `int16`
  arithmetic (`++` / `--`).
* Go `int64` file sizes are modelled as `Int` (no arithmetic is ever
  performed on them; they are only rendered in decimal by `%d`).
* `fmt.Sprintf("%s_%d", name, size)` is modelled as
  `name ++ "_" ++ toString size`.
* Channels, goroutines and locks are modelled by explicit sequencing:
  the aggregator consumes the list of events in arrival order, and the
  walker's admission decisions (`AddWorker` outcomes, which in the real
  program depend on scheduling) are abstracted as an oracle
  `adm : String → Bool` consulted per subdirectory.
* `os.Stdin` is modelled as a list of scanned tokens; an exhausted input
  during the confirmation loop is a genuinely diverging busy loop in the
  Go code and is represented by the `stuck` flag (plus `promptIter`,
  a one-iteration model of the outer `for fl` loop, for the divergence
  theorem itself).
-/

/-- The `FindDuplicate` event struct sent on the channel
(`DirName`, `FileName`, `FileSize int64`, `workerId uint16`). -/
structure FindDuplicate where
  DirName : String
  FileName : String
  FileSize : Int
  workerId : Nat
deriving DecidableEq, Repr

/-- Two's-complement wrap of an integer into the `int16` range
`[-32768, 32767]`, the semantics of Go `int16` arithmetic. -/
def int16wrap (z : Int) : Int :=
  (z + 32768) % 65536 - 32768

/-- The `Options` struct: behaviour flags and the worker-budget counters
(`maxCountThread`, `currentThreadCount` are `int16` in Go; the mutex and
logger fields are concurrency/IO-boundary artefacts with no bearing on the
values computed and are not part of the state). -/
structure Options where
  mustConfirmationDelete : Bool
  needRemoveDuplicate : Bool
  maxCountThread : Int
  currentThreadCount : Int
deriving DecidableEq, Repr

/-- `OptionsNewDefault` (zero-value `currentThreadCount = 0`). -/
def OptionsNewDefault : Options :=
  { mustConfirmationDelete := true
    needRemoveDuplicate := false
    maxCountThread := -1
    currentThreadCount := 0 }

/-- `OptionsNew` constructor (zero-value `currentThreadCount = 0`). -/
def OptionsNew (mustConfirmationDelete : Bool) (needRemoveDuplicate : Bool)
    (maxCountThread : Int) : Options :=
  { mustConfirmationDelete := mustConfirmationDelete
    needRemoveDuplicate := needRemoveDuplicate
    maxCountThread := maxCountThread
    currentThreadCount := 0 }

/-- Getter `MustConfirmationDeleteGet`. -/
def Options.MustConfirmationDeleteGet (o : Options) : Bool :=
  o.mustConfirmationDelete

/-- Setter `MustConfirmationDeleteSet`. -/
def Options.MustConfirmationDeleteSet (o : Options) (val : Bool) : Options :=
  { o with mustConfirmationDelete := val }

/-- Getter `NeedRemoveDuplicateGet`. -/
def Options.NeedRemoveDuplicateGet (o : Options) : Bool :=
  o.needRemoveDuplicate

/-- Setter `NeedRemoveDuplicateSet`. -/
def Options.NeedRemoveDuplicateSet (o : Options) (val : Bool) : Options :=
  { o with needRemoveDuplicate := val }

/-- Getter `MaxCountThreadGet`. -/
def Options.MaxCountThreadGet (o : Options) : Int :=
  o.maxCountThread

/-- Setter `MaxCountThreadSet` (`val` denotes an `int16` value). -/
def Options.MaxCountThreadSet (o : Options) (val : Int) : Options :=
  { o with maxCountThread := val }

/-- Getter `CurrentThreadCountGet`. -/
def Options.CurrentThreadCountGet (o : Options) : Int :=
  o.currentThreadCount

/-- Setter `CurrentThreadCountSet` (`val` denotes an `int16` value). -/
def Options.CurrentThreadCountSet (o : Options) (val : Int) : Options :=
  { o with currentThreadCount := val }

/-- `AddWorker`: if `maxCountThread == -1 || currentThreadCount < maxCountThread`
then increment the counter (Go `int16` increment, hence the wrap) and
return `true`, else return `false` with the state unchanged. -/
def Options.AddWorker (o : Options) : Options × Bool :=
  if o.maxCountThread = -1 ∨ o.currentThreadCount < o.maxCountThread then
    ({ o with currentThreadCount := int16wrap (o.currentThreadCount + 1) }, true)
  else
    (o, false)

/-- `RemoveWorker`: unconditional Go `int16` decrement of the counter. -/
def Options.RemoveWorker (o : Options) : Options :=
  { o with currentThreadCount := int16wrap (o.currentThreadCount - 1) }

/-- One call in a history of worker-budget operations. -/
inductive WOp where
  | addW
  | removeW
deriving DecidableEq, Repr

/-- Effect of one budget call on the `Options` state (the boolean result of
`AddWorker` is dropped; a denied `AddWorker` leaves the state unchanged). -/
def wbStep (o : Options) : WOp → Options
  | WOp.addW => o.AddWorker.1
  | WOp.removeW => o.RemoveWorker

/-- Run a sequence of budget calls from a given state. -/
def execWB (o : Options) : List WOp → Options
  | [] => o
  | op :: rest => execWB (wbStep o op) rest

/-- A call history is disciplined when every `RemoveWorker` happens while the
counter is positive, i.e. each release is matched with a prior successful
acquisition (the pairing contract stated in the spec for `release`). -/
def wbLegal (o : Options) : List WOp → Bool
  | [] => true
  | WOp.addW :: rest => wbLegal (wbStep o WOp.addW) rest
  | WOp.removeW :: rest =>
      decide (0 < o.currentThreadCount) && wbLegal (wbStep o WOp.removeW) rest

/-- Classification of one consumed channel event by the aggregator:
a directory marker (logged only), a first occurrence (inserted into
`mapFiles`), or a detected duplicate. -/
inductive EvClass where
  | dirInfo
  | firstSeen
  | dup
deriving DecidableEq, Repr

/-- Observable reports of the aggregator, one constructor per
`Debugf`/`Printf` site of `StartDuplicateFind` in the source. -/
inductive AggOutput where
  | dirProcessing (workerId : Nat) (dirName : String)
  | fileFound (path : String)
  | duplicateFound (path : String) (size : Int)
  | deletePrompt (path : String) (size : Int)
  | fileDeleted (path : String)
  | skipReport
  | invalidInput
deriving DecidableEq, Repr

/-- The identity key `fmt.Sprintf("%s_%d", fd.FileName, fd.FileSize)`. -/
def sMapKey (fileName : String) (fileSize : Int) : String :=
  fileName ++ "_" ++ toString fileSize

/-- The interactive confirmation loop over the scanned `os.Stdin` tokens:
consume tokens until the first `"y"` (report the deletion) or `"n"`
(report the skip); any other token reports an invalid input and
re-prompts.  Returns the reports, the remaining input, and a flag that is
`true` when the input was exhausted first — in the Go code that case is an
infinite busy loop (`fl` stays `true`, `scanner.Scan()` keeps failing). -/
def confirmLoop (fPath : String) : List String → List AggOutput × List String × Bool
  | [] => ([], [], true)
  | t :: rest =>
      if t = "y" then ([AggOutput.fileDeleted fPath], rest, false)
      else if t = "n" then ([AggOutput.skipReport], rest, false)
      else
        let r := confirmLoop fPath rest
        (AggOutput.invalidInput :: r.1, r.2.1, r.2.2)

/-- One iteration of the outer `for fl` loop of the confirmation dialogue,
as a step function on the state (flag `fl`, remaining input): with input
available, a `y`/`n` token clears the flag and any other token keeps it
set; with exhausted input the inner `for scanner.Scan()` loop exits
immediately and nothing changes. -/
def promptIter (st : Bool × List String) : Bool × List String :=
  if st.1 = false then st
  else
    match st.2 with
    | [] => (true, [])
    | t :: rest => if t = "y" ∨ t = "n" then (false, rest) else (true, rest)

/-- Result of the aggregator's handling of a single event. -/
structure StepResult where
  mapFiles : List String
  stdin : List String
  cls : EvClass
  out : List AggOutput
  stuck : Bool
deriving DecidableEq, Repr

/-- Handling of one received `FindDuplicate` event by the body of the
`for fd := range ch` loop of `StartDuplicateFind`: skip directory markers
when confirmation mode is on; otherwise compute `sMapKey`; on a hit run
the confirmation dialogue (when both flags are set) or report the file as
deleted; on a miss insert the key. -/
def processEvent (o : Options) (m : List String) (s : List String)
    (fd : FindDuplicate) : StepResult :=
  if o.MustConfirmationDeleteGet ∧ fd.FileName = "" then
    { mapFiles := m, stdin := s, cls := EvClass.dirInfo
      out := [AggOutput.dirProcessing fd.workerId fd.DirName], stuck := false }
  else
    let fPath := fd.DirName ++ "/" ++ fd.FileName
    let key := sMapKey fd.FileName fd.FileSize
    if key ∈ m then
      if o.MustConfirmationDeleteGet ∧ o.NeedRemoveDuplicateGet then
        let r := confirmLoop fPath s
        { mapFiles := m, stdin := r.2.1, cls := EvClass.dup
          out := AggOutput.fileFound fPath ::
            AggOutput.duplicateFound fPath fd.FileSize ::
            AggOutput.deletePrompt fPath fd.FileSize :: r.1
          stuck := r.2.2 }
      else
        { mapFiles := m, stdin := s, cls := EvClass.dup
          out := [AggOutput.fileFound fPath,
            AggOutput.duplicateFound fPath fd.FileSize,
            AggOutput.fileDeleted fPath]
          stuck := false }
    else
      { mapFiles := key :: m, stdin := s, cls := EvClass.firstSeen
        out := [AggOutput.fileFound fPath], stuck := false }

/-- Result of a whole aggregator run: per-event classifications (in
consumption order), all reports, the final `mapFiles`, the remaining
input, and whether the run got stuck in a confirmation dialogue. -/
structure AggResult where
  classes : List EvClass
  outputs : List AggOutput
  mapFiles : List String
  stdinRest : List String
  stuck : Bool
deriving DecidableEq, Repr

/-- The `for fd := range ch` loop of `StartDuplicateFind`: consume events
in arrival order; a stuck confirmation dialogue blocks the aggregator
forever, so no later event is consumed. -/
def aggLoop (o : Options) : List FindDuplicate → List String → List String → AggResult
  | [], m, s =>
      { classes := [], outputs := [], mapFiles := m, stdinRest := s, stuck := false }
  | fd :: rest, m, s =>
      let r := processEvent o m s fd
      if r.stuck then
        { classes := [r.cls], outputs := r.out, mapFiles := r.mapFiles
          stdinRest := r.stdin, stuck := true }
      else
        let q := aggLoop o rest r.mapFiles r.stdin
        { classes := r.cls :: q.classes, outputs := r.out ++ q.outputs
          mapFiles := q.mapFiles, stdinRest := q.stdinRest, stuck := q.stuck }

/-- `StartDuplicateFind`: the aggregator starts with an empty
`mapFiles = map[string]struct{}{}` and drains the event stream. -/
def StartDuplicateFind (o : Options) (events : List FindDuplicate)
    (stdin : List String) : AggResult :=
  aggLoop o events [] stdin

/-- Pure per-event classification sequence of the aggregator (what class
each event of the stream would get); `processEvent` is invoked with an
empty input because neither the classification nor the map update depends
on the interactive input. -/
def classifyAll (o : Options) (m : List String) : List FindDuplicate → List EvClass
  | [] => []
  | fd :: rest =>
      (processEvent o m [] fd).cls ::
        classifyAll o (processEvent o m [] fd).mapFiles rest

/-- In-memory model of a directory tree entry, as observed by
`Readdirnames` plus `os.Stat`: either a regular file (with its size) or
a subdirectory with its own entries. -/
inductive FSEntry where
  | file (name : String) (size : Int)
  | dir (name : String) (entries : List FSEntry)

mutual

/-- `StartContentChanges` walking the directory `dirName` whose listed
entries are `entries`: emit the directory-entered event (only when
confirmation mode is on — `FileName` left empty, `workerId` left unset,
i.e. zero), then process the entries in order.  `adm : String → Bool` is
the admission oracle abstracting the `AddWorker` outcome for each
subdirectory path (the concurrently-scheduled and the in-line
continuation both run this same walk, so only the `idWorker` argument
differs between the two branches). -/
def StartContentChanges (confirm : Bool) (adm : String → Bool)
    (dirName : String) (entries : List FSEntry) (idWorker : Nat) :
    List FindDuplicate :=
  (if confirm then
    [{ DirName := dirName, FileName := "", FileSize := 0, workerId := 0 }]
  else []) ++ walkEntries confirm adm dirName entries idWorker
termination_by (sizeOf entries, 1)

/-- The `for _, s := range fileNames` loop of `StartContentChanges`:
a regular file is emitted as a `FindDuplicate` event (the composite
literal in the source sets `DirName`, `FileName`, `FileSize` but leaves
`workerId` at its zero value); a subdirectory is walked with
`idWorker+1` when admission is granted and with the same `idWorker`
in-line when it is denied. -/
def walkEntries (confirm : Bool) (adm : String → Bool) (dirName : String)
    (entries : List FSEntry) (idWorker : Nat) : List FindDuplicate :=
  match entries with
  | [] => []
  | FSEntry.file name size :: rest =>
      { DirName := dirName, FileName := name, FileSize := size, workerId := 0 } ::
        walkEntries confirm adm dirName rest idWorker
  | FSEntry.dir name sub :: rest =>
      (if adm (dirName ++ "/" ++ name) then
        StartContentChanges confirm adm (dirName ++ "/" ++ name) sub (idWorker + 1)
      else
        StartContentChanges confirm adm (dirName ++ "/" ++ name) sub idWorker) ++
        walkEntries confirm adm dirName rest idWorker
termination_by (sizeOf entries, 0)

end

/-- The file-found events among a walk's emissions (directory-entered
events carry an empty `FileName`). -/
def fileEvents (l : List FindDuplicate) : List FindDuplicate :=
  l.filter (fun fd => fd.FileName != "")

/-- Modelled from the spec (Scenario C / §4.2): the expected file coverage
of a full walk — one file-found event per regular file of the tree, with
`DirName` the path of its enclosing directory (and `workerId` zero, since
the source never sets that field).  This is the spec-side reference the
walk is compared against. -/
def filesOf (dirName : String) (entries : List FSEntry) : List FindDuplicate :=
  match entries with
  | [] => []
  | FSEntry.file name size :: rest =>
      { DirName := dirName, FileName := name, FileSize := size, workerId := 0 } ::
        filesOf dirName rest
  | FSEntry.dir name sub :: rest =>
      filesOf (dirName ++ "/" ++ name) sub ++ filesOf dirName rest

/-- A tree is well-formed when every regular file has a non-empty name
(true of any real directory listing; an empty name would make the file
event indistinguishable from a directory marker). -/
def entriesOK (entries : List FSEntry) : Bool :=
  match entries with
  | [] => true
  | FSEntry.file name _ :: rest => (name != "") && entriesOK rest
  | FSEntry.dir _ sub :: rest => entriesOK sub && entriesOK rest

/-- `StartWatch`: wire the walker and the aggregator together — the root
walk (worker id 1) produces the event stream that the aggregator
consumes; the channel is closed when the walk finishes. -/
def StartWatch (o : Options) (rootDir : String) (entries : List FSEntry)
    (adm : String → Bool) (stdin : List String) : AggResult :=
  StartDuplicateFind o
    (StartContentChanges o.MustConfirmationDeleteGet adm rootDir entries 1) stdin

/-- Decimal value of a digit string (left fold); a left inverse of
`Nat.toDigits 10`, used to prove the identity key injective. -/
def decodeDigits (l : List Char) : Nat :=
  l.foldl (fun a c => 10 * a + (c.toNat - 48)) 0

/-! ## Worker budget: `AddWorker` / `RemoveWorker` -/

lemma int16wrap_eq_self {z : Int} (hlo : -32768 ≤ z) (hhi : z ≤ 32767) :
    int16wrap z = z := by
  unfold int16wrap
  have h0 : 0 ≤ z + 32768 := by omega
  have h1 : z + 32768 < 65536 := by omega
  rw [Int.emod_eq_of_lt h0 h1]
  omega

lemma wbStep_maxCountThread (o : Options) (op : WOp) :
    (wbStep o op).maxCountThread = o.maxCountThread := by
  cases op with
  | addW =>
      simp only [wbStep, Options.AddWorker]
      split <;> rfl
  | removeW => rfl

lemma execWB_maxCountThread (ops : List WOp) (o : Options) :
    (execWB o ops).maxCountThread = o.maxCountThread := by
  induction ops generalizing o with
  | nil => rfl
  | cons op rest ih => rw [execWB, ih, wbStep_maxCountThread]

lemma wbLegal_append {o : Options} {p t : List WOp}
    (h : wbLegal o (p ++ t) = true) : wbLegal o p = true := by
  induction p generalizing o with
  | nil => rfl
  | cons op rest ih =>
      cases op with
      | addW => exact ih (by simpa [wbLegal] using h)
      | removeW =>
          rw [List.cons_append, wbLegal, Bool.and_eq_true] at h
          rw [wbLegal, Bool.and_eq_true]
          exact ⟨h.1, ih h.2⟩

lemma execWB_bounds_of_le_max (ops : List WOp) (o : Options)
    (hleg : wbLegal o ops = true) (hm0 : 0 ≤ o.maxCountThread)
    (hm1 : o.maxCountThread ≤ 32767) (hc0 : 0 ≤ o.currentThreadCount)
    (hc1 : o.currentThreadCount ≤ o.maxCountThread) :
    0 ≤ (execWB o ops).currentThreadCount ∧
      (execWB o ops).currentThreadCount ≤ o.maxCountThread := by
  induction ops generalizing o with
  | nil => exact ⟨hc0, hc1⟩
  | cons op rest ih =>
      cases op with
      | addW =>
          rw [wbLegal] at hleg
          rw [execWB]
          have hmax := wbStep_maxCountThread o WOp.addW
          have hcur : 0 ≤ (wbStep o WOp.addW).currentThreadCount ∧
              (wbStep o WOp.addW).currentThreadCount ≤ o.maxCountThread := by
            simp only [wbStep, Options.AddWorker]
            split
            · rename_i hcond
              have hlt : o.currentThreadCount < o.maxCountThread := by
                rcases hcond with h | h
                · omega
                · exact h
              simp only
              rw [int16wrap_eq_self (by omega) (by omega)]
              omega
            · exact ⟨hc0, hc1⟩
          have := ih (wbStep o WOp.addW) hleg (by rw [hmax]; omega)
            (by rw [hmax]; omega) hcur.1 (by rw [hmax]; exact hcur.2)
          rw [wbStep_maxCountThread] at this
          exact this
      | removeW =>
          rw [wbLegal, Bool.and_eq_true, decide_eq_true_eq] at hleg
          rw [execWB]
          have hmax := wbStep_maxCountThread o WOp.removeW
          have hcur : (wbStep o WOp.removeW).currentThreadCount =
              o.currentThreadCount - 1 := by
            simp only [wbStep, Options.RemoveWorker]
            exact int16wrap_eq_self (by omega) (by omega)
          have := ih (wbStep o WOp.removeW) hleg.2 (by rw [hmax]; omega)
            (by rw [hmax]; omega) (by rw [hcur]; omega)
            (by rw [hcur, hmax]; omega)
          rw [wbStep_maxCountThread] at this
          exact this

lemma execWB_bounds_unbounded (ops : List WOp) (o : Options)
    (hleg : wbLegal o ops = true) (hm : o.maxCountThread = -1)
    (hc0 : 0 ≤ o.currentThreadCount)
    (hlen : o.currentThreadCount + (ops.length : Int) ≤ 32767) :
    0 ≤ (execWB o ops).currentThreadCount ∧
      (execWB o ops).currentThreadCount ≤
        o.currentThreadCount + (ops.length : Int) := by
  induction ops generalizing o with
  | nil =>
      rw [execWB]
      simp only [List.length_nil]
      omega
  | cons op rest ih =>
      rw [List.length_cons] at hlen
      push_cast at hlen
      cases op with
      | addW =>
          rw [wbLegal] at hleg
          rw [execWB]
          have hcur : (wbStep o WOp.addW).currentThreadCount =
              o.currentThreadCount + 1 := by
            have hcond : o.maxCountThread = -1 ∨
                o.currentThreadCount < o.maxCountThread := Or.inl hm
            simp only [wbStep, Options.AddWorker, if_pos hcond]
            exact int16wrap_eq_self (by omega) (by omega)
          have hmax := wbStep_maxCountThread o WOp.addW
          have := ih (wbStep o WOp.addW) hleg (by rw [hmax]; exact hm)
            (by rw [hcur]; omega) (by rw [hcur]; omega)
          rw [hcur] at this
          rw [List.length_cons]
          push_cast
          omega
      | removeW =>
          rw [wbLegal, Bool.and_eq_true, decide_eq_true_eq] at hleg
          rw [execWB]
          have hcur : (wbStep o WOp.removeW).currentThreadCount =
              o.currentThreadCount - 1 := by
            simp only [wbStep, Options.RemoveWorker]
            exact int16wrap_eq_self (by omega) (by omega)
          have hmax := wbStep_maxCountThread o WOp.removeW
          have := ih (wbStep o WOp.removeW) hleg.2 (by rw [hmax]; exact hm)
            (by rw [hcur]; omega) (by rw [hcur]; omega)
          rw [hcur] at this
          rw [List.length_cons]
          push_cast
          omega

/-- C6: `AddWorker` increments `currentThreadCount` and returns `true`
exactly when `maxCountThread = -1` or `currentThreadCount < maxCountThread`;
otherwise it returns `false` and leaves the state unchanged.  The range
hypotheses pin the counter inside the `int16` range where the Go `++` is a
genuine increment. -/
theorem AddWorker_spec (o : Options) (hlo : -32768 ≤ o.currentThreadCount)
    (hhi : o.currentThreadCount < 32767) :
    (o.AddWorker.2 = true ↔
      (o.maxCountThread = -1 ∨ o.currentThreadCount < o.maxCountThread)) ∧
    (o.AddWorker.2 = true →
      o.AddWorker.1 = { o with currentThreadCount := o.currentThreadCount + 1 }) ∧
    (o.AddWorker.2 = false → o.AddWorker.1 = o) := by
  by_cases h : o.maxCountThread = -1 ∨ o.currentThreadCount < o.maxCountThread
  · refine ⟨by simp [Options.AddWorker, h], fun _ => ?_, fun hf => ?_⟩
    · simp only [Options.AddWorker, if_pos h]
      rw [int16wrap_eq_self (by omega) (by omega)]
    · simp [Options.AddWorker, h] at hf
  · refine ⟨by simp [Options.AddWorker, h], fun ht => ?_, fun _ => ?_⟩
    · simp [Options.AddWorker, h] at ht
    · simp [Options.AddWorker, h]

/-- Witness for `AddWorker_spec` at the program's own configuration
(`OptionsNew(..., 10)`, fresh counter). -/
theorem AddWorker_spec_witness :
    ((OptionsNew true false 10).AddWorker.2 = true ↔
      ((OptionsNew true false 10).maxCountThread = -1 ∨
        (OptionsNew true false 10).currentThreadCount <
          (OptionsNew true false 10).maxCountThread)) ∧
    ((OptionsNew true false 10).AddWorker.2 = true →
      (OptionsNew true false 10).AddWorker.1 =
        { OptionsNew true false 10 with
            currentThreadCount := (OptionsNew true false 10).currentThreadCount + 1 }) ∧
    ((OptionsNew true false 10).AddWorker.2 = false →
      (OptionsNew true false 10).AddWorker.1 = OptionsNew true false 10) :=
  AddWorker_spec (OptionsNew true false 10) (by decide) (by decide)

/-- C7 counterexample: the claim quantifies over any sequence of
`tryAcquire`/`release` calls, but a single unpaired `RemoveWorker` from
the program's initial state drives `currentThreadCount` to `-1`, which is
negative. -/
theorem RemoveWorker_unpaired_cex :
    (execWB (OptionsNew true false 10) [WOp.removeW]).currentThreadCount = -1 ∧
    (execWB (OptionsNew true false 10) [WOp.removeW]).currentThreadCount < 0 := by
  decide

/-- C7 (amended): for any disciplined call history (every `RemoveWorker`
issued while the counter is positive, i.e. releases paired with prior
successful acquisitions), at every point of the history: if
`maxCountThread` is non-negative (and an `int16` value) the counter stays
within `[0, maxCountThread]`; and if `maxCountThread = -1` the counter
stays non-negative as long as the history is short enough not to overflow
`int16` (at most 32767 calls from a fresh counter). -/
theorem execWB_worker_bounds (o : Options) (ops p : List WOp)
    (hleg : wbLegal o ops = true) (hp : p <+: ops) :
    (0 ≤ o.maxCountThread → o.maxCountThread ≤ 32767 →
      0 ≤ o.currentThreadCount → o.currentThreadCount ≤ o.maxCountThread →
      0 ≤ (execWB o p).currentThreadCount ∧
        (execWB o p).currentThreadCount ≤ o.maxCountThread) ∧
    (o.maxCountThread = -1 → o.currentThreadCount = 0 →
      (ops.length : Int) ≤ 32767 →
      0 ≤ (execWB o p).currentThreadCount) := by
  obtain ⟨t, rfl⟩ := hp
  have hlegp : wbLegal o p = true := wbLegal_append hleg
  constructor
  · intro hm0 hm1 hc0 hc1
    exact execWB_bounds_of_le_max p o hlegp hm0 hm1 hc0 hc1
  · intro hm hc hlen
    have hplen : (p.length : Int) ≤ 32767 := by
      rw [List.length_append] at hlen
      omega
    exact (execWB_bounds_unbounded p o hlegp hm (by omega) (by omega)).1

/-! ## Injectivity of the identity key `fmt.Sprintf("%s_%d", name, size)` -/

lemma digitChar_isDigit {m : Nat} (h : m < 10) :
    (Nat.digitChar m).isDigit = true := by
  interval_cases m <;> decide

lemma toDigitsCore_isDigit :
    ∀ (fuel n : Nat) (ds : List Char), (∀ c ∈ ds, c.isDigit = true) →
      ∀ c ∈ Nat.toDigitsCore 10 fuel n ds, c.isDigit = true := by
  intro fuel
  induction fuel with
  | zero => intro n ds hds; simpa [Nat.toDigitsCore] using hds
  | succ f ih =>
      intro n ds hds c hc
      rw [Nat.toDigitsCore] at hc
      have hdig : (Nat.digitChar (n % 10)).isDigit = true :=
        digitChar_isDigit (Nat.mod_lt _ (by omega))
      by_cases hz : n / 10 = 0
      · rw [if_pos hz] at hc
        rcases List.mem_cons.1 hc with h | h
        · exact h ▸ hdig
        · exact hds c h
      · rw [if_neg hz] at hc
        refine ih (n / 10) (Nat.digitChar (n % 10) :: ds) ?_ c hc
        intro x hx
        rcases List.mem_cons.1 hx with h | h
        · exact h ▸ hdig
        · exact hds x h

lemma toDigitsCore_length_le :
    ∀ (fuel n : Nat) (ds : List Char),
      ds.length ≤ (Nat.toDigitsCore 10 fuel n ds).length := by
  intro fuel
  induction fuel with
  | zero => intro n ds; simp [Nat.toDigitsCore]
  | succ f ih =>
      intro n ds
      rw [Nat.toDigitsCore]
      by_cases hz : n / 10 = 0
      · rw [if_pos hz]; simp
      · rw [if_neg hz]
        have := ih (n / 10) (Nat.digitChar (n % 10) :: ds)
        simp only [List.length_cons] at this
        omega

lemma toDigitsCore_length_lt (fuel n : Nat) (ds : List Char) (h : 0 < fuel) :
    ds.length < (Nat.toDigitsCore 10 fuel n ds).length := by
  obtain ⟨f, rfl⟩ : ∃ f, fuel = f + 1 := ⟨fuel - 1, by omega⟩
  rw [Nat.toDigitsCore]
  by_cases hz : n / 10 = 0
  · rw [if_pos hz]; simp
  · rw [if_neg hz]
    have := toDigitsCore_length_le f (n / 10) (Nat.digitChar (n % 10) :: ds)
    simp only [List.length_cons] at this
    omega

lemma toDigitsCore_acc :
    ∀ (fuel n : Nat) (ds : List Char),
      Nat.toDigitsCore 10 fuel n ds = Nat.toDigitsCore 10 fuel n [] ++ ds := by
  intro fuel
  induction fuel with
  | zero => intro n ds; simp [Nat.toDigitsCore]
  | succ f ih =>
      intro n ds
      rw [Nat.toDigitsCore, Nat.toDigitsCore]
      by_cases hz : n / 10 = 0
      · rw [if_pos hz, if_pos hz]; rfl
      · rw [if_neg hz, if_neg hz]
        rw [ih (n / 10) (Nat.digitChar (n % 10) :: ds),
          ih (n / 10) [Nat.digitChar (n % 10)]]
        simp

lemma toDigitsCore_fuel (n : Nat) :
    ∀ (f1 f2 : Nat) (ds : List Char), n < f1 → n < f2 →
      Nat.toDigitsCore 10 f1 n ds = Nat.toDigitsCore 10 f2 n ds := by
  induction n using Nat.strong_induction_on with
  | _ n ih =>
      intro f1 f2 ds h1 h2
      obtain ⟨g1, rfl⟩ : ∃ g, f1 = g + 1 := ⟨f1 - 1, by omega⟩
      obtain ⟨g2, rfl⟩ : ∃ g, f2 = g + 1 := ⟨f2 - 1, by omega⟩
      rw [Nat.toDigitsCore, Nat.toDigitsCore]
      by_cases hz : n / 10 = 0
      · rw [if_pos hz, if_pos hz]
      · rw [if_neg hz, if_neg hz]
        have hlt : n / 10 < n := Nat.div_lt_self (by omega) (by omega)
        exact ih (n / 10) hlt g1 g2 _ (by omega) (by omega)

lemma toDigits_split (n : Nat) (h : 10 ≤ n) :
    Nat.toDigits 10 n =
      Nat.toDigits 10 (n / 10) ++ [Nat.digitChar (n % 10)] := by
  have hz : n / 10 ≠ 0 := by
    intro hz
    have := Nat.div_eq_of_lt (show n < 10 by omega)
    omega
  rw [Nat.toDigits, Nat.toDigitsCore, if_neg hz,
    toDigitsCore_acc n (n / 10) [Nat.digitChar (n % 10)],
    toDigitsCore_fuel (n / 10) n (n / 10 + 1) []
      (Nat.div_lt_self (by omega) (by omega)) (Nat.lt_succ_self _)]
  rfl

lemma digitChar_toNat {m : Nat} (h : m < 10) :
    (Nat.digitChar m).toNat = m + 48 := by
  interval_cases m <;> decide

lemma decode_toDigits : ∀ n : Nat, decodeDigits (Nat.toDigits 10 n) = n := by
  intro n
  induction n using Nat.strong_induction_on with
  | _ n ih =>
      by_cases h : n < 10
      · have hz : n / 10 = 0 := Nat.div_eq_of_lt h
        have hm : n % 10 = n := Nat.mod_eq_of_lt h
        rw [Nat.toDigits, Nat.toDigitsCore, if_pos hz, hm]
        simp [decodeDigits, List.foldl, digitChar_toNat h]
      · rw [toDigits_split n (by omega)]
        unfold decodeDigits
        rw [List.foldl_append]
        have hrec := ih (n / 10) (Nat.div_lt_self (by omega) (by omega))
        unfold decodeDigits at hrec
        rw [hrec]
        simp only [List.foldl]
        rw [digitChar_toNat (Nat.mod_lt _ (by omega))]
        omega

lemma natRepr_data (n : Nat) : (Nat.repr n).data = Nat.toDigits 10 n := rfl

lemma natRepr_data_inj {m n : Nat}
    (h : (Nat.repr m).data = (Nat.repr n).data) : m = n := by
  rw [natRepr_data, natRepr_data] at h
  have := decode_toDigits m
  rw [h, decode_toDigits n] at this
  omega

lemma natRepr_isDigit (n : Nat) : ∀ c ∈ (Nat.repr n).data, c.isDigit = true := by
  rw [natRepr_data]
  exact toDigitsCore_isDigit (n + 1) n [] (by simp)

lemma natRepr_data_ne_nil (n : Nat) : (Nat.repr n).data ≠ [] := by
  rw [natRepr_data]
  have := toDigitsCore_length_lt (n + 1) n [] (by omega)
  intro hnil
  rw [Nat.toDigits] at hnil
  rw [hnil] at this
  simp at this

lemma intToString_ofNat (m : Nat) : toString (Int.ofNat m) = Nat.repr m := rfl

lemma intToString_negSucc (m : Nat) :
    toString (Int.negSucc m) = "-" ++ Nat.repr (m + 1) := rfl

lemma intToString_no_uscore (s : Int) : '_' ∉ (toString s).data := by
  cases s with
  | ofNat m =>
      rw [intToString_ofNat]
      intro hmem
      have := natRepr_isDigit m _ hmem
      simp at this
  | negSucc m =>
      rw [intToString_negSucc]
      rw [String.data_append]
      intro hmem
      rcases List.mem_append.1 hmem with h | h
      · simp at h
      · have := natRepr_isDigit (m + 1) _ h
        simp at this

lemma intToString_data_inj {s1 s2 : Int}
    (h : (toString s1).data = (toString s2).data) : s1 = s2 := by
  cases s1 with
  | ofNat m1 =>
      cases s2 with
      | ofNat m2 =>
          rw [intToString_ofNat, intToString_ofNat] at h
          exact congrArg Int.ofNat (natRepr_data_inj h)
      | negSucc m2 =>
          rw [intToString_ofNat, intToString_negSucc, String.data_append] at h
          have hmem : '-' ∈ (Nat.repr m1).data := by
            rw [h]; simp
          have := natRepr_isDigit m1 _ hmem
          simp at this
  | negSucc m1 =>
      cases s2 with
      | ofNat m2 =>
          rw [intToString_negSucc, intToString_ofNat, String.data_append] at h
          have hmem : '-' ∈ (Nat.repr m2).data := by
            rw [← h]; simp
          have := natRepr_isDigit m2 _ hmem
          simp at this
      | negSucc m2 =>
          rw [intToString_negSucc, intToString_negSucc,
            String.data_append, String.data_append] at h
          simp only [List.append_eq, List.cons_append] at h
          have h2 : (Nat.repr (m1 + 1)).data = (Nat.repr (m2 + 1)).data := by
            simpa using h
          have := natRepr_data_inj h2
          have hm : m1 = m2 := by omega
          rw [hm]

lemma append_uscore_inj :
    ∀ (a : List Char) {b d1 d2 : List Char}, '_' ∉ d1 → '_' ∉ d2 →
      a ++ '_' :: d1 = b ++ '_' :: d2 → a = b ∧ d1 = d2 := by
  intro a
  induction a with
  | nil =>
      intro b d1 d2 h1 h2 heq
      cases b with
      | nil => simpa using heq
      | cons c b =>
          simp only [List.nil_append, List.cons_append, List.cons.injEq] at heq
          exfalso
          apply h1

          rw [heq.2]
          exact List.mem_append.2 (Or.inr (List.mem_cons_self _ _))
  | cons c a ih =>
      intro b d1 d2 h1 h2 heq
      cases b with
      | nil =>
          simp only [List.cons_append, List.nil_append, List.cons.injEq] at heq
          exfalso
          apply h2
          rw [heq.2.symm]
          exact List.mem_append.2 (Or.inr (List.mem_cons_self _ _))
      | cons c2 b =>
          simp only [List.cons_append, List.cons.injEq] at heq
          obtain ⟨hcc, htail⟩ := heq
          obtain ⟨hab, hd⟩ := ih h1 h2 htail
          exact ⟨by rw [hcc, hab], hd⟩

lemma sMapKey_data (name : String) (size : Int) :
    (sMapKey name size).data = name.data ++ '_' :: (toString size).data := by
  unfold sMapKey
  rw [String.data_append, String.data_append]
  simp

lemma sMapKey_inj {n1 n2 : String} {s1 s2 : Int}
    (h : sMapKey n1 s1 = sMapKey n2 s2) : n1 = n2 ∧ s1 = s2 := by
  have hd := congrArg String.data h
  rw [sMapKey_data, sMapKey_data] at hd
  obtain ⟨hn, hs⟩ := append_uscore_inj n1.data
    (intToString_no_uscore s1) (intToString_no_uscore s2) hd
  exact ⟨String.ext hn, intToString_data_inj hs⟩

/-- Witness for `execWB_worker_bounds`: three acquisitions and one release
under budget 2, inspected after the first two calls. -/
theorem execWB_worker_bounds_witness :
    0 ≤ (execWB (OptionsNew true false 2) [WOp.addW, WOp.addW]).currentThreadCount ∧
    (execWB (OptionsNew true false 2) [WOp.addW, WOp.addW]).currentThreadCount ≤
      (OptionsNew true false 2).maxCountThread :=
  (execWB_worker_bounds (OptionsNew true false 2)
      [WOp.addW, WOp.addW, WOp.removeW] [WOp.addW, WOp.addW]
      (by decide) (by decide)).1
    (by decide) (by decide) (by decide) (by decide)

/-! ## Aggregator: classification and map lemmas -/

lemma processEvent_stdin_indep (o : Options) (m s : List String)
    (fd : FindDuplicate) :
    (processEvent o m s fd).cls = (processEvent o m [] fd).cls ∧
    (processEvent o m s fd).mapFiles = (processEvent o m [] fd).mapFiles := by
  by_cases h1 : o.MustConfirmationDeleteGet = true ∧ fd.FileName = ""
  · simp only [processEvent, if_pos h1]
    exact ⟨trivial, trivial⟩
  · by_cases h2 : sMapKey fd.FileName fd.FileSize ∈ m
    · by_cases h3 : o.MustConfirmationDeleteGet = true ∧
          o.NeedRemoveDuplicateGet = true
      · simp only [processEvent, if_neg h1, if_pos h2, if_pos h3]
        exact ⟨trivial, trivial⟩
      · simp only [processEvent, if_neg h1, if_pos h2, if_neg h3]
        exact ⟨trivial, trivial⟩
    · simp only [processEvent, if_neg h1, if_neg h2]
      exact ⟨trivial, trivial⟩

lemma processEvent_dup (o : Options) (m s : List String) (fd : FindDuplicate)
    (hf : fd.FileName ≠ "") (hk : sMapKey fd.FileName fd.FileSize ∈ m) :
    (processEvent o m s fd).cls = EvClass.dup ∧
    (processEvent o m s fd).mapFiles = m := by
  have h1 : ¬(o.MustConfirmationDeleteGet = true ∧ fd.FileName = "") :=
    fun h => hf h.2
  by_cases h3 : o.MustConfirmationDeleteGet = true ∧ o.NeedRemoveDuplicateGet = true
  · simp only [processEvent, if_neg h1, if_pos hk, if_pos h3]
    exact ⟨trivial, trivial⟩
  · simp only [processEvent, if_neg h1, if_pos hk, if_neg h3]
    exact ⟨trivial, trivial⟩

lemma processEvent_firstSeen (o : Options) (m s : List String)
    (fd : FindDuplicate) (hf : fd.FileName ≠ "")
    (hk : sMapKey fd.FileName fd.FileSize ∉ m) :
    (processEvent o m s fd).cls = EvClass.firstSeen ∧
    (processEvent o m s fd).mapFiles = sMapKey fd.FileName fd.FileSize :: m ∧
    (processEvent o m s fd).stuck = false := by
  have h1 : ¬(o.MustConfirmationDeleteGet = true ∧ fd.FileName = "") :=
    fun h => hf h.2
  simp only [processEvent, if_neg h1, if_neg hk]
  exact ⟨trivial, trivial, trivial⟩

lemma processEvent_mapFiles_shape (o : Options) (m s : List String)
    (fd : FindDuplicate) (hf : fd.FileName ≠ "") :
    (processEvent o m s fd).mapFiles =
      if sMapKey fd.FileName fd.FileSize ∈ m then m
      else sMapKey fd.FileName fd.FileSize :: m := by
  by_cases hk : sMapKey fd.FileName fd.FileSize ∈ m
  · rw [if_pos hk]
    exact (processEvent_dup o m s fd hf hk).2
  · rw [if_neg hk]
    exact (processEvent_firstSeen o m s fd hf hk).2.1

lemma processEvent_mapFiles_mono (o : Options) (m s : List String)
    (fd : FindDuplicate) (x : String) (hx : x ∈ m) :
    x ∈ (processEvent o m s fd).mapFiles := by
  by_cases h1 : o.MustConfirmationDeleteGet = true ∧ fd.FileName = ""
  · simp only [processEvent, if_pos h1]
    exact hx
  · by_cases h2 : sMapKey fd.FileName fd.FileSize ∈ m
    · by_cases h3 : o.MustConfirmationDeleteGet = true ∧
          o.NeedRemoveDuplicateGet = true
      · simp only [processEvent, if_neg h1, if_pos h2, if_pos h3]
        exact hx
      · simp only [processEvent, if_neg h1, if_pos h2, if_neg h3]
        exact hx
    · simp only [processEvent, if_neg h1, if_neg h2]
      exact List.mem_cons_of_mem _ hx

lemma processEvent_key_mem (o : Options) (m s : List String)
    (fd : FindDuplicate) (hf : fd.FileName ≠ "") :
    sMapKey fd.FileName fd.FileSize ∈ (processEvent o m s fd).mapFiles := by
  by_cases hk : sMapKey fd.FileName fd.FileSize ∈ m
  · rw [(processEvent_dup o m s fd hf hk).2]
    exact hk
  · rw [(processEvent_firstSeen o m s fd hf hk).2.1]
    exact List.mem_cons_self _ _

lemma aggLoop_cons (o : Options) (e : FindDuplicate)
    (rest : List FindDuplicate) (m s : List String) :
    aggLoop o (e :: rest) m s =
      if (processEvent o m s e).stuck then
        { classes := [(processEvent o m s e).cls]
          outputs := (processEvent o m s e).out
          mapFiles := (processEvent o m s e).mapFiles
          stdinRest := (processEvent o m s e).stdin, stuck := true }
      else
        { classes := (processEvent o m s e).cls ::
            (aggLoop o rest (processEvent o m s e).mapFiles
              (processEvent o m s e).stdin).classes
          outputs := (processEvent o m s e).out ++
            (aggLoop o rest (processEvent o m s e).mapFiles
              (processEvent o m s e).stdin).outputs
          mapFiles := (aggLoop o rest (processEvent o m s e).mapFiles
            (processEvent o m s e).stdin).mapFiles
          stdinRest := (aggLoop o rest (processEvent o m s e).mapFiles
            (processEvent o m s e).stdin).stdinRest
          stuck := (aggLoop o rest (processEvent o m s e).mapFiles
            (processEvent o m s e).stdin).stuck } := rfl

lemma classifyAll_length (o : Options) :
    ∀ (evs : List FindDuplicate) (m : List String),
      (classifyAll o m evs).length = evs.length := by
  intro evs
  induction evs with
  | nil => intro m; rfl
  | cons e rest ih => intro m; rw [classifyAll]; simp [ih]

lemma aggLoop_mapFiles_mono (o : Options) :
    ∀ (evs : List FindDuplicate) (m s : List String) (x : String), x ∈ m →
      x ∈ (aggLoop o evs m s).mapFiles := by
  intro evs
  induction evs with
  | nil => intro m s x hx; exact hx
  | cons e rest ih =>
      intro m s x hx
      rw [aggLoop_cons]
      by_cases hst : (processEvent o m s e).stuck
      · rw [if_pos hst]
        exact processEvent_mapFiles_mono o m s e x hx
      · rw [if_neg hst]
        exact ih _ _ x (processEvent_mapFiles_mono o m s e x hx)

lemma aggLoop_classes_getElem (o : Options) :
    ∀ (evs : List FindDuplicate) (m s : List String) (k : Nat),
      k < (aggLoop o evs m s).classes.length →
      (aggLoop o evs m s).classes[k]? = (classifyAll o m evs)[k]? := by
  intro evs
  induction evs with
  | nil => intro m s k hk; simp [aggLoop] at hk
  | cons e rest ih =>
      intro m s k hk
      rw [aggLoop_cons] at hk ⊢
      rw [classifyAll]
      by_cases hst : (processEvent o m s e).stuck
      · rw [if_pos hst] at hk ⊢
        simp only [List.length_cons, List.length_nil] at hk
        have hk0 : k = 0 := by omega
        subst hk0
        rw [List.getElem?_cons_zero, List.getElem?_cons_zero]
        rw [(processEvent_stdin_indep o m s e).1]
      · rw [if_neg hst] at hk ⊢
        cases k with
        | zero =>
            rw [List.getElem?_cons_zero, List.getElem?_cons_zero]
            rw [(processEvent_stdin_indep o m s e).1]
        | succ k =>
            rw [List.getElem?_cons_succ, List.getElem?_cons_succ]
            simp only [List.length_cons] at hk
            have hk2 : k < (aggLoop o rest (processEvent o m s e).mapFiles
                (processEvent o m s e).stdin).classes.length := by omega
            rw [ih _ _ k hk2, (processEvent_stdin_indep o m s e).2]

lemma aggLoop_consumed_key_mem (o : Options) :
    ∀ (evs : List FindDuplicate) (m s : List String) (k : Nat)
      (fdk : FindDuplicate), evs[k]? = some fdk →
      k < (aggLoop o evs m s).classes.length →
      (∀ fd ∈ evs, fd.FileName ≠ "") →
      sMapKey fdk.FileName fdk.FileSize ∈ (aggLoop o evs m s).mapFiles := by
  intro evs
  induction evs with
  | nil => intro m s k fdk hk; simp at hk
  | cons e rest ih =>
      intro m s k fdk hk hlen hname
      have he : e.FileName ≠ "" := hname e (List.mem_cons_self _ _)
      rw [aggLoop_cons] at hlen ⊢
      by_cases hst : (processEvent o m s e).stuck
      · rw [if_pos hst] at hlen ⊢
        simp only [List.length_cons, List.length_nil] at hlen
        have hk0 : k = 0 := by omega
        subst hk0
        rw [List.getElem?_cons_zero] at hk
        injection hk with hk
        subst hk
        exact processEvent_key_mem o m s e he
      · rw [if_neg hst] at hlen ⊢
        cases k with
        | zero =>
            rw [List.getElem?_cons_zero] at hk
            injection hk with hk
            subst hk
            exact aggLoop_mapFiles_mono o rest _ _ _
              (processEvent_key_mem o m s e he)
        | succ k =>
            rw [List.getElem?_cons_succ] at hk
            simp only [List.length_cons] at hlen
            exact ih _ _ k fdk hk (by omega)
              (fun fd hfd => hname fd (List.mem_cons_of_mem _ hfd))

lemma classifyAll_getElem (o : Options) :
    ∀ (evs : List FindDuplicate) (m : List String) (k : Nat)
      (fdk : FindDuplicate), evs[k]? = some fdk →
      (∀ fd ∈ evs, fd.FileName ≠ "") →
      ((sMapKey fdk.FileName fdk.FileSize ∈ m ∨
          ∃ fd ∈ evs.take k, sMapKey fd.FileName fd.FileSize =
            sMapKey fdk.FileName fdk.FileSize) →
        (classifyAll o m evs)[k]? = some EvClass.dup) ∧
      (¬(sMapKey fdk.FileName fdk.FileSize ∈ m ∨
          ∃ fd ∈ evs.take k, sMapKey fd.FileName fd.FileSize =
            sMapKey fdk.FileName fdk.FileSize) →
        (classifyAll o m evs)[k]? = some EvClass.firstSeen) := by
  intro evs
  induction evs with
  | nil => intro m k fdk hk; simp at hk
  | cons e rest ih =>
      intro m k fdk hk hname
      have he : e.FileName ≠ "" := hname e (List.mem_cons_self _ _)
      cases k with
      | zero =>
          rw [List.getElem?_cons_zero] at hk
          injection hk with hk
          subst hk
          rw [List.take_zero]
          constructor
          · rintro (hmem | ⟨fd, hfd, hkey⟩)
            · rw [classifyAll, List.getElem?_cons_zero,
                (processEvent_dup o m [] e he hmem).1]
            · simp at hfd
          · intro hcond
            have hnot : sMapKey e.FileName e.FileSize ∉ m :=
              fun hm => hcond (Or.inl hm)
            rw [classifyAll, List.getElem?_cons_zero,
              (processEvent_firstSeen o m [] e he hnot).1]
      | succ k =>
          rw [List.getElem?_cons_succ] at hk
          have hrest := ih (processEvent o m [] e).mapFiles k fdk hk
            (fun fd hfd => hname fd (List.mem_cons_of_mem _ hfd))
          have hiff : (sMapKey fdk.FileName fdk.FileSize ∈
                (processEvent o m [] e).mapFiles ∨
              ∃ fd ∈ rest.take k, sMapKey fd.FileName fd.FileSize =
                sMapKey fdk.FileName fdk.FileSize) ↔
              (sMapKey fdk.FileName fdk.FileSize ∈ m ∨
              ∃ fd ∈ (e :: rest).take (k + 1),
                sMapKey fd.FileName fd.FileSize =
                  sMapKey fdk.FileName fdk.FileSize) := by
            rw [processEvent_mapFiles_shape o m [] e he, List.take_succ_cons]
            by_cases hKe : sMapKey e.FileName e.FileSize ∈ m
            · rw [if_pos hKe]
              constructor
              · rintro (hmem | ⟨fd, hfd, hkey⟩)
                · exact Or.inl hmem
                · exact Or.inr ⟨fd, List.mem_cons_of_mem _ hfd, hkey⟩
              · rintro (hmem | ⟨fd, hfd, hkey⟩)
                · exact Or.inl hmem
                · rcases List.mem_cons.1 hfd with hfe | hft
                  · subst hfe
                    exact Or.inl (hkey ▸ hKe)
                  · exact Or.inr ⟨fd, hft, hkey⟩
            · rw [if_neg hKe]
              constructor
              · rintro (hmem | ⟨fd, hfd, hkey⟩)
                · rcases List.mem_cons.1 hmem with hfe | hft
                  · exact Or.inr ⟨e, List.mem_cons_self _ _, hfe.symm⟩
                  · exact Or.inl hft
                · exact Or.inr ⟨fd, List.mem_cons_of_mem _ hfd, hkey⟩
              · rintro (hmem | ⟨fd, hfd, hkey⟩)
                · exact Or.inl (List.mem_cons_of_mem _ hmem)
                · rcases List.mem_cons.1 hfd with hfe | hft
                  · subst hfe
                    exact Or.inl (hkey ▸ List.mem_cons_self _ _)
                  · exact Or.inr ⟨fd, hft, hkey⟩
          constructor
          · intro hcond
            rw [classifyAll, List.getElem?_cons_succ]
            exact hrest.1 (hiff.2 hcond)
          · intro hcond
            rw [classifyAll, List.getElem?_cons_succ]
            exact hrest.2 (fun hc => hcond (hiff.1 hc))

lemma mem_take_exists_getElem {α : Type} {l : List α} {k : Nat} {x : α}
    (h : x ∈ l.take k) : ∃ n : Nat, n < k ∧ l[n]? = some x := by
  obtain ⟨n, hn⟩ := List.mem_iff_getElem?.1 h
  have hlt : n < (l.take k).length := (List.getElem?_eq_some_iff.1 hn).1
  have hk : n < k := by
    rw [List.length_take] at hlt
    omega
  refine ⟨n, hk, ?_⟩
  rw [← List.getElem?_take_of_lt hk]
  exact hn

/-! ## Claim theorems about the aggregator -/

/-- C1: over any stream of file-found events (non-empty `FileName`),
for any two positions `i < j` carrying the same `(fileName, fileSize)`
pair such that `i` is the first arrival of that pair, the aggregator
classifies the event at `i` as a first occurrence (and inserts its key
into the observed set, where it remains), and classifies the event at `j`
as a duplicate. -/
theorem StartDuplicateFind_first_arrival (o : Options)
    (evs : List FindDuplicate) (stdin : List String) (i j : Nat)
    (ei ej : FindDuplicate) (hname : ∀ fd ∈ evs, fd.FileName ≠ "")
    (hi : evs[i]? = some ei) (hj : evs[j]? = some ej) (hij : i < j)
    (hjc : j < (StartDuplicateFind o evs stdin).classes.length)
    (hpair : ei.FileName = ej.FileName ∧ ei.FileSize = ej.FileSize)
    (hfirst : ∀ fd ∈ evs.take i,
      fd.FileName ≠ ei.FileName ∨ fd.FileSize ≠ ei.FileSize) :
    (StartDuplicateFind o evs stdin).classes[i]? = some EvClass.firstSeen ∧
    (StartDuplicateFind o evs stdin).classes[j]? = some EvClass.dup ∧
    sMapKey ei.FileName ei.FileSize ∈
      (StartDuplicateFind o evs stdin).mapFiles := by
  have hic : i < (StartDuplicateFind o evs stdin).classes.length :=
    Nat.lt_trans hij hjc
  unfold StartDuplicateFind at hic hjc ⊢
  refine ⟨?_, ?_, ?_⟩
  · rw [aggLoop_classes_getElem o evs [] stdin i hic]
    refine (classifyAll_getElem o evs [] i ei hi hname).2 ?_
    rintro (hmem | ⟨fd, hfd, hkey⟩)
    · simp at hmem
    · rcases sMapKey_inj hkey with ⟨hn, hs⟩
      rcases hfirst fd hfd with h | h
      · exact h hn
      · exact h hs
  · rw [aggLoop_classes_getElem o evs [] stdin j hjc]
    refine (classifyAll_getElem o evs [] j ej hj hname).1 (Or.inr ?_)
    refine ⟨ei, ?_, ?_⟩
    · refine List.mem_iff_getElem?.2 ⟨i, ?_⟩
      rw [List.getElem?_take_of_lt hij]
      exact hi
    · rw [hpair.1, hpair.2]
  · exact aggLoop_consumed_key_mem o evs [] stdin i ei hi hic hname

/-- Witness for `StartDuplicateFind_first_arrival`: the two-event
Scenario A stream (`a.txt` of size 10 in two directories). -/
theorem StartDuplicateFind_first_arrival_witness :
    (StartDuplicateFind (OptionsNew true false 10)
      [{ DirName := "d", FileName := "a.txt", FileSize := 10, workerId := 0 },
       { DirName := "e", FileName := "a.txt", FileSize := 10, workerId := 0 }]
      []).classes[0]? = some EvClass.firstSeen ∧
    (StartDuplicateFind (OptionsNew true false 10)
      [{ DirName := "d", FileName := "a.txt", FileSize := 10, workerId := 0 },
       { DirName := "e", FileName := "a.txt", FileSize := 10, workerId := 0 }]
      []).classes[1]? = some EvClass.dup ∧
    sMapKey "a.txt" 10 ∈ (StartDuplicateFind (OptionsNew true false 10)
      [{ DirName := "d", FileName := "a.txt", FileSize := 10, workerId := 0 },
       { DirName := "e", FileName := "a.txt", FileSize := 10, workerId := 0 }]
      []).mapFiles :=
  StartDuplicateFind_first_arrival (OptionsNew true false 10)
    [{ DirName := "d", FileName := "a.txt", FileSize := 10, workerId := 0 },
     { DirName := "e", FileName := "a.txt", FileSize := 10, workerId := 0 }]
    [] 0 1
    { DirName := "d", FileName := "a.txt", FileSize := 10, workerId := 0 }
    { DirName := "e", FileName := "a.txt", FileSize := 10, workerId := 0 }
    (by decide) (by decide) (by decide) (by decide) (by decide)
    ⟨rfl, rfl⟩ (by decide)

/-- C2: if all events of the stream carry pairwise distinct
`(fileName, fileSize)` pairs then no consumed event is ever classified as
a duplicate; and the identity key `fileName ++ "_" ++ decimal(fileSize)`
is injective on pairs with non-negative sizes. -/
theorem StartDuplicateFind_distinct_no_dup (o : Options)
    (evs : List FindDuplicate) (stdin : List String) (c : EvClass)
    (n1 n2 : String) (s1 s2 : Int)
    (hname : ∀ fd ∈ evs, fd.FileName ≠ "")
    (hdist : evs.Pairwise
      (fun a b => a.FileName ≠ b.FileName ∨ a.FileSize ≠ b.FileSize))
    (hc : c ∈ (StartDuplicateFind o evs stdin).classes)
    (hs1 : 0 ≤ s1) (hs2 : 0 ≤ s2)
    (hkey : sMapKey n1 s1 = sMapKey n2 s2) :
    c ≠ EvClass.dup ∧ n1 = n2 ∧ s1 = s2 := by
  refine ⟨?_, (sMapKey_inj hkey).1, (sMapKey_inj hkey).2⟩
  obtain ⟨k, hk⟩ := List.mem_iff_getElem?.1 hc
  have hkc : k < (StartDuplicateFind o evs stdin).classes.length :=
    (List.getElem?_eq_some_iff.1 hk).1
  unfold StartDuplicateFind at hk hkc
  rw [aggLoop_classes_getElem o evs [] stdin k hkc] at hk
  have hke : k < evs.length := by
    have := (List.getElem?_eq_some_iff.1 hk).1
    rw [classifyAll_length] at this
    exact this
  obtain ⟨fdk, hfdk⟩ : ∃ fdk, evs[k]? = some fdk :=
    ⟨evs[k], List.getElem?_eq_getElem hke⟩
  have hnot : ¬(sMapKey fdk.FileName fdk.FileSize ∈ ([] : List String) ∨
      ∃ fd ∈ evs.take k, sMapKey fd.FileName fd.FileSize =
        sMapKey fdk.FileName fdk.FileSize) := by
    rintro (hmem | ⟨fd, hfd, hkey2⟩)
    · simp at hmem
    · obtain ⟨l, hlk, hl⟩ := mem_take_exists_getElem hfd
      have hle : l < evs.length := (List.getElem?_eq_some_iff.1 hl).1
      have hR := List.pairwise_iff_getElem.1 hdist l k hle hke hlk
      have hfd_eq : evs[l] = fd := by
        have := List.getElem?_eq_some_iff.1 hl
        exact this.2
      have hfdk_eq : evs[k] = fdk := by
        have := List.getElem?_eq_some_iff.1 hfdk
        exact this.2
      rw [hfd_eq, hfdk_eq] at hR
      rcases sMapKey_inj hkey2 with ⟨hn, hs⟩
      rcases hR with h | h
      · exact h hn
      · exact h hs
  have := (classifyAll_getElem o evs [] k fdk hfdk hname).2 hnot
  rw [this] at hk
  injection hk with hk
  rw [← hk]
  decide

/-- Witness for `StartDuplicateFind_distinct_no_dup`: Scenario B
(`a.txt` of sizes 10 and 20) plus the key equation at `("a.txt", 10)`. -/
theorem StartDuplicateFind_distinct_no_dup_witness :
    EvClass.firstSeen ≠ EvClass.dup ∧ "a.txt" = "a.txt" ∧ (10 : Int) = 10 :=
  StartDuplicateFind_distinct_no_dup (OptionsNew true false 10)
    [{ DirName := "d", FileName := "a.txt", FileSize := 10, workerId := 0 },
     { DirName := "e", FileName := "a.txt", FileSize := 20, workerId := 0 }]
    [] EvClass.firstSeen "a.txt" "a.txt" 10 10
    (by decide) (by decide) (by decide) (by decide) (by decide) rfl

/-- C9: the observed set never loses a key (whatever was in `mapFiles`
before a run is still there afterwards — in particular a `"y"`-confirmed
deletion does not remove the duplicate's key), and any event whose
`(fileName, fileSize)` pair already arrived earlier in the stream is
classified as a duplicate, regardless of how earlier prompts were
answered. -/
theorem StartDuplicateFind_observed_set_mono (o : Options)
    (evs : List FindDuplicate) (m s stdin : List String) (x : String)
    (i j : Nat) (ei ej : FindDuplicate) (hx : x ∈ m)
    (hname : ∀ fd ∈ evs, fd.FileName ≠ "")
    (hi : evs[i]? = some ei) (hj : evs[j]? = some ej) (hij : i < j)
    (hjc : j < (StartDuplicateFind o evs stdin).classes.length)
    (hpair : ei.FileName = ej.FileName ∧ ei.FileSize = ej.FileSize) :
    x ∈ (aggLoop o evs m s).mapFiles ∧
    (StartDuplicateFind o evs stdin).classes[j]? = some EvClass.dup := by
  refine ⟨aggLoop_mapFiles_mono o evs m s x hx, ?_⟩
  unfold StartDuplicateFind at hjc ⊢
  rw [aggLoop_classes_getElem o evs [] stdin j hjc]
  refine (classifyAll_getElem o evs [] j ej hj hname).1 (Or.inr ?_)
  refine ⟨ei, ?_, ?_⟩
  · refine List.mem_iff_getElem?.2 ⟨i, ?_⟩
    rw [List.getElem?_take_of_lt hij]
    exact hi
  · rw [hpair.1, hpair.2]

/-- Witness for `StartDuplicateFind_observed_set_mono`: a three-event
stream in interactive delete mode where the first duplicate is confirmed
with `"y"`; the third event with the same pair is still a duplicate, and
a pre-existing key survives a run. -/
theorem StartDuplicateFind_observed_set_mono_witness :
    "k" ∈ (aggLoop (OptionsNew true true 10)
      [{ DirName := "d", FileName := "a.txt", FileSize := 10, workerId := 0 },
       { DirName := "e", FileName := "a.txt", FileSize := 10, workerId := 0 },
       { DirName := "f", FileName := "a.txt", FileSize := 10, workerId := 0 }]
      ["k"] ["y", "y"]).mapFiles ∧
    (StartDuplicateFind (OptionsNew true true 10)
      [{ DirName := "d", FileName := "a.txt", FileSize := 10, workerId := 0 },
       { DirName := "e", FileName := "a.txt", FileSize := 10, workerId := 0 },
       { DirName := "f", FileName := "a.txt", FileSize := 10, workerId := 0 }]
      ["y", "y"]).classes[2]? = some EvClass.dup :=
  StartDuplicateFind_observed_set_mono (OptionsNew true true 10)
    [{ DirName := "d", FileName := "a.txt", FileSize := 10, workerId := 0 },
     { DirName := "e", FileName := "a.txt", FileSize := 10, workerId := 0 },
     { DirName := "f", FileName := "a.txt", FileSize := 10, workerId := 0 }]
    ["k"] ["y", "y"] ["y", "y"] "k" 1 2
    { DirName := "e", FileName := "a.txt", FileSize := 10, workerId := 0 }
    { DirName := "f", FileName := "a.txt", FileSize := 10, workerId := 0 }
    (by decide) (by decide) (by decide) (by decide) (by decide) (by decide)
    ⟨rfl, rfl⟩

/-- C3 counterexample: with `needRemoveDuplicate = false` (and
confirmation mode on, so the interactive branch is also off), the
aggregator still reports the duplicate as deleted — the `else` branch
prints the deletion message unconditionally, so there is no
"mere report without a deletion claim" when `deleteDuplicates` is unset. -/
theorem StartDuplicateFind_deleted_report_cex :
    AggOutput.fileDeleted "e/a.txt" ∈ (StartDuplicateFind
      (OptionsNew true false 10)
      [{ DirName := "d", FileName := "a.txt", FileSize := 10, workerId := 0 },
       { DirName := "e", FileName := "a.txt", FileSize := 10, workerId := 0 }]
      []).outputs ∧
    (OptionsNew true false 10).NeedRemoveDuplicateGet = false := by
  decide

/-- C3 (amended): when `(requireConfirmation && deleteDuplicates)` does
not hold, a detected duplicate is reported as deleted unconditionally —
whether or not `deleteDuplicates` is set — with no user interaction (the
input is untouched) and no change to the observed set. -/
theorem processEvent_noninteractive_dup_report (o : Options)
    (m s : List String) (fd : FindDuplicate)
    (hng : ¬(o.MustConfirmationDeleteGet = true ∧
      o.NeedRemoveDuplicateGet = true))
    (hf : fd.FileName ≠ "") (hk : sMapKey fd.FileName fd.FileSize ∈ m) :
    processEvent o m s fd =
      { mapFiles := m, stdin := s, cls := EvClass.dup
        out := [AggOutput.fileFound (fd.DirName ++ "/" ++ fd.FileName),
          AggOutput.duplicateFound (fd.DirName ++ "/" ++ fd.FileName)
            fd.FileSize,
          AggOutput.fileDeleted (fd.DirName ++ "/" ++ fd.FileName)]
        stuck := false } := by
  have h1 : ¬(o.MustConfirmationDeleteGet = true ∧ fd.FileName = "") :=
    fun h => hf h.2
  simp only [processEvent, if_neg h1, if_pos hk, if_neg hng]

/-- Witness for `processEvent_noninteractive_dup_report` (report-only
mode, duplicate of `a.txt` size 10). -/
theorem processEvent_noninteractive_dup_report_witness :
    processEvent (OptionsNew true false 10) ["a.txt_10"] ["y"]
      { DirName := "e", FileName := "a.txt", FileSize := 10, workerId := 0 } =
      { mapFiles := ["a.txt_10"], stdin := ["y"], cls := EvClass.dup
        out := [AggOutput.fileFound "e/a.txt",
          AggOutput.duplicateFound "e/a.txt" 10,
          AggOutput.fileDeleted "e/a.txt"]
        stuck := false } :=
  processEvent_noninteractive_dup_report (OptionsNew true false 10)
    ["a.txt_10"] ["y"]
    { DirName := "e", FileName := "a.txt", FileSize := 10, workerId := 0 }
    (by decide) (by decide) (by decide)

lemma confirmLoop_invalid_tokens (fPath : String) :
    ∀ (pre : List String), (∀ t ∈ pre, t ≠ "y" ∧ t ≠ "n") →
      ∀ rest : List String,
      confirmLoop fPath (pre ++ rest) =
        ((pre.map fun _ => AggOutput.invalidInput) ++
            (confirmLoop fPath rest).1,
          (confirmLoop fPath rest).2.1, (confirmLoop fPath rest).2.2) := by
  intro pre
  induction pre with
  | nil => intro hpre rest; simp
  | cons t pre ih =>
      intro hpre rest
      have ht := hpre t (List.mem_cons_self _ _)
      rw [List.cons_append, confirmLoop, if_neg ht.1, if_neg ht.2,
        ih (fun x hx => hpre x (List.mem_cons_of_mem _ hx)) rest]
      simp

/-- C5: during one interactive confirmation, every token other than
`"y"`/`"n"` produces an invalid-input re-prompt and the loop goes on; the
loop ends at the first `"y"` with exactly the deletion report, or at the
first `"n"` with the skip report.  In particular the input
`"x", "x", "y"` yields two rejections and exactly one reported
deletion. -/
theorem confirmLoop_reprompt_until_answer (fPath : String)
    (pre rest : List String) (hpre : ∀ t ∈ pre, t ≠ "y" ∧ t ≠ "n") :
    confirmLoop fPath (pre ++ "y" :: rest) =
      ((pre.map fun _ => AggOutput.invalidInput) ++
        [AggOutput.fileDeleted fPath], rest, false) ∧
    confirmLoop fPath (pre ++ "n" :: rest) =
      ((pre.map fun _ => AggOutput.invalidInput) ++
        [AggOutput.skipReport], rest, false) ∧
    (confirmLoop fPath ["x", "x", "y"]).1 =
      [AggOutput.invalidInput, AggOutput.invalidInput,
        AggOutput.fileDeleted fPath] ∧
    (confirmLoop fPath ["x", "x", "y"]).1.count
      (AggOutput.fileDeleted fPath) = 1 := by
  have hx : (confirmLoop fPath ["x", "x", "y"]).1 =
      [AggOutput.invalidInput, AggOutput.invalidInput,
        AggOutput.fileDeleted fPath] := by
    simp [confirmLoop]
  refine ⟨?_, ?_, hx, ?_⟩
  · rw [confirmLoop_invalid_tokens fPath pre hpre ("y" :: rest)]
    simp [confirmLoop]
  · rw [confirmLoop_invalid_tokens fPath pre hpre ("n" :: rest)]
    simp [confirmLoop]
  · rw [hx]
    simp [List.count_cons]

/-- Witness for `confirmLoop_reprompt_until_answer` at the Scenario D
input stream. -/
theorem confirmLoop_reprompt_until_answer_witness :
    confirmLoop "e/a.txt" (["x", "x"] ++ "y" :: []) =
      ((["x", "x"].map fun _ => AggOutput.invalidInput) ++
        [AggOutput.fileDeleted "e/a.txt"], [], false) ∧
    confirmLoop "e/a.txt" (["x", "x"] ++ "n" :: []) =
      ((["x", "x"].map fun _ => AggOutput.invalidInput) ++
        [AggOutput.skipReport], [], false) ∧
    (confirmLoop "e/a.txt" ["x", "x", "y"]).1 =
      [AggOutput.invalidInput, AggOutput.invalidInput,
        AggOutput.fileDeleted "e/a.txt"] ∧
    (confirmLoop "e/a.txt" ["x", "x", "y"]).1.count
      (AggOutput.fileDeleted "e/a.txt") = 1 :=
  confirmLoop_reprompt_until_answer "e/a.txt" ["x", "x"] [] (by decide)

/-- C10: if the input is exhausted before a `"y"`/`"n"` is read, the
confirmation dialogue never terminates: the scan loop yields no token and
reports exhaustion, the controlling flag stays `true` under every number
of further iterations of the outer loop (`promptIter`), and the
aggregator consumes no further event from the stream — the run ends stuck
with exactly the one duplicate classification. -/
theorem confirm_empty_input_diverges (o : Options) (fd : FindDuplicate)
    (m : List String) (rest : List FindDuplicate) (n : Nat)
    (hc : o.MustConfirmationDeleteGet = true)
    (hd : o.NeedRemoveDuplicateGet = true) (hf : fd.FileName ≠ "")
    (hk : sMapKey fd.FileName fd.FileSize ∈ m) :
    (confirmLoop (fd.DirName ++ "/" ++ fd.FileName) []).2.2 = true ∧
    promptIter^[n] (true, ([] : List String)) = (true, []) ∧
    (aggLoop o (fd :: rest) m []).classes = [EvClass.dup] ∧
    (aggLoop o (fd :: rest) m []).stuck = true := by
  have h1 : ¬(o.MustConfirmationDeleteGet = true ∧ fd.FileName = "") :=
    fun h => hf h.2
  have hpe : processEvent o m [] fd =
      { mapFiles := m, stdin := [], cls := EvClass.dup
        out := AggOutput.fileFound (fd.DirName ++ "/" ++ fd.FileName) ::
          AggOutput.duplicateFound (fd.DirName ++ "/" ++ fd.FileName)
            fd.FileSize ::
          AggOutput.deletePrompt (fd.DirName ++ "/" ++ fd.FileName)
            fd.FileSize :: []
        stuck := true } := by
    have h3 : o.MustConfirmationDeleteGet = true ∧
        o.NeedRemoveDuplicateGet = true := ⟨hc, hd⟩
    simp only [processEvent, if_neg h1, if_pos hk, if_pos h3]
    exact rfl
  have hiter : ∀ k : Nat, promptIter^[k] (true, ([] : List String)) = (true, []) := by
    intro k
    induction k with
    | zero => rfl
    | succ k ih => rw [Function.iterate_succ_apply, show promptIter
        (true, ([] : List String)) = (true, []) from rfl, ih]
  refine ⟨rfl, hiter n, ?_, ?_⟩
  · rw [aggLoop_cons, hpe]
    rfl
  · rw [aggLoop_cons, hpe]
    rfl

/-- Witness for `confirm_empty_input_diverges`: interactive delete mode,
a duplicate of `a.txt` size 10, empty input, three further iterations. -/
theorem confirm_empty_input_diverges_witness :
    (confirmLoop ("e" ++ "/" ++ "a.txt") []).2.2 = true ∧
    promptIter^[3] (true, ([] : List String)) = (true, []) ∧
    (aggLoop (OptionsNew true true 10)
      [{ DirName := "e", FileName := "a.txt", FileSize := 10, workerId := 0 },
       { DirName := "f", FileName := "b.txt", FileSize := 3, workerId := 0 }]
      ["a.txt_10"] []).classes = [EvClass.dup] ∧
    (aggLoop (OptionsNew true true 10)
      [{ DirName := "e", FileName := "a.txt", FileSize := 10, workerId := 0 },
       { DirName := "f", FileName := "b.txt", FileSize := 3, workerId := 0 }]
      ["a.txt_10"] []).stuck = true :=
  confirm_empty_input_diverges (OptionsNew true true 10)
    { DirName := "e", FileName := "a.txt", FileSize := 10, workerId := 0 }
    ["a.txt_10"]
    [{ DirName := "f", FileName := "b.txt", FileSize := 3, workerId := 0 }] 3
    (by decide) (by decide) (by decide) (by decide)

/-! ## Walker: coverage is independent of the admission outcomes -/

lemma sizeOf_FSEntry_list_pos (l : List FSEntry) : 0 < sizeOf l := by
  cases l <;> simp

lemma walkEntries_indep :
    ∀ (k : Nat) (entries : List FSEntry), sizeOf entries ≤ k →
      ∀ (confirm : Bool) (adm adm2 : String → Bool) (dirName : String)
        (id id2 : Nat),
      walkEntries confirm adm dirName entries id =
        walkEntries confirm adm2 dirName entries id2 := by
  intro k
  induction k with
  | zero =>
      intro entries h
      exact absurd h (by have := sizeOf_FSEntry_list_pos entries; omega)
  | succ k ih =>
      intro entries h confirm adm adm2 dirName id id2
      cases entries with
      | nil => simp [walkEntries]
      | cons e rest =>
          cases e with
          | file name size =>
              simp only [List.cons.sizeOf_spec, FSEntry.file.sizeOf_spec] at h
              simp only [walkEntries]
              rw [ih rest (by omega) confirm adm adm2 dirName id id2]
          | dir name sub =>
              simp only [List.cons.sizeOf_spec, FSEntry.dir.sizeOf_spec] at h
              simp only [walkEntries]
              have hsub : ∀ x y : Nat,
                  StartContentChanges confirm adm (dirName ++ "/" ++ name)
                      sub x =
                    StartContentChanges confirm adm2 (dirName ++ "/" ++ name)
                      sub y := by
                intro x y
                simp only [StartContentChanges]
                rw [ih sub (by omega) confirm adm adm2 _ x y]
              rw [ih rest (by omega) confirm adm adm2 dirName id id2]
              congr 1
              by_cases h1 : adm (dirName ++ "/" ++ name)
              · rw [if_pos h1]
                by_cases h2 : adm2 (dirName ++ "/" ++ name)
                · rw [if_pos h2]
                  exact hsub _ _
                · rw [if_neg h2]
                  exact hsub _ _
              · rw [if_neg h1]
                by_cases h2 : adm2 (dirName ++ "/" ++ name)
                · rw [if_pos h2]
                  exact hsub _ _
                · rw [if_neg h2]
                  exact hsub _ _

lemma fileEvents_append (a b : List FindDuplicate) :
    fileEvents (a ++ b) = fileEvents a ++ fileEvents b := by
  simp [fileEvents]

lemma walkEntries_fileEvents :
    ∀ (k : Nat) (entries : List FSEntry), sizeOf entries ≤ k →
      ∀ (confirm : Bool) (adm : String → Bool) (dirName : String) (id : Nat),
      entriesOK entries = true →
      fileEvents (walkEntries confirm adm dirName entries id) =
        filesOf dirName entries := by
  intro k
  induction k with
  | zero =>
      intro entries h
      exact absurd h (by have := sizeOf_FSEntry_list_pos entries; omega)
  | succ k ih =>
      intro entries h confirm adm dirName id hok
      cases entries with
      | nil => simp [walkEntries, filesOf, fileEvents]
      | cons e rest =>
          cases e with
          | file name size =>
              simp only [List.cons.sizeOf_spec, FSEntry.file.sizeOf_spec] at h
              rw [entriesOK, Bool.and_eq_true] at hok
              simp only [walkEntries, filesOf]
              rw [fileEvents, List.filter_cons]
              simp only [hok.1, if_pos]
              rw [← fileEvents, ih rest (by omega) confirm adm dirName id hok.2]
          | dir name sub =>
              simp only [List.cons.sizeOf_spec, FSEntry.dir.sizeOf_spec] at h
              rw [entriesOK, Bool.and_eq_true] at hok
              simp only [walkEntries, filesOf]
              rw [fileEvents_append,
                ih rest (by omega) confirm adm dirName id hok.2]
              have hsub : ∀ x : Nat, fileEvents (StartContentChanges confirm
                  adm (dirName ++ "/" ++ name) sub x) =
                  filesOf (dirName ++ "/" ++ name) sub := by
                intro x
                simp only [StartContentChanges]
                rw [fileEvents_append,
                  ih sub (by omega) confirm adm _ x hok.1]
                by_cases hc : confirm <;> simp [hc, fileEvents]
              by_cases h1 : adm (dirName ++ "/" ++ name) <;> simp [h1, hsub]

/-- C8: the walk's emissions do not depend on the admission oracle or on
the worker ids at all — `adm := fun _ => true` is the
`maxConcurrentWorkers = -1` run (every subdirectory walked by a freshly
admitted worker) and `adm := fun _ => false` is the
`maxConcurrentWorkers = 1` run (the root worker holds the only slot, so
every subdirectory is continued in-line) — and for a well-formed tree the
file-found events of the walk are exactly one event per regular file of
the tree (`filesOf`): the whole tree is fully walked under any budget. -/
theorem StartContentChanges_budget_indep (confirm : Bool)
    (adm adm2 : String → Bool) (dirName : String) (entries : List FSEntry)
    (id id2 : Nat) (hok : entriesOK entries = true) :
    StartContentChanges confirm adm dirName entries id =
      StartContentChanges confirm adm2 dirName entries id2 ∧
    fileEvents (StartContentChanges confirm adm dirName entries id) =
      filesOf dirName entries := by
  constructor
  · simp only [StartContentChanges]
    rw [walkEntries_indep (sizeOf entries) entries le_rfl confirm adm adm2
      dirName id id2]
  · simp only [StartContentChanges]
    rw [fileEvents_append, walkEntries_fileEvents (sizeOf entries) entries
      le_rfl confirm adm dirName id hok]
    by_cases hc : confirm <;> simp [hc, fileEvents]

/-- Witness for `StartContentChanges_budget_indep`: a five-level nested
tree (Scenario C), walked once with every admission denied
(`maxConcurrentWorkers = 1`, in-line continuation) and once with every
admission granted (`maxConcurrentWorkers = -1`). -/
theorem StartContentChanges_budget_indep_witness :
    StartContentChanges true (fun _ => false) "root"
      [FSEntry.file "a.txt" 10,
       FSEntry.dir "d1" [FSEntry.dir "d2" [FSEntry.dir "d3"
         [FSEntry.dir "d4" [FSEntry.dir "d5" [FSEntry.file "deep.txt" 3]]]]]]
      1 =
    StartContentChanges true (fun _ => true) "root"
      [FSEntry.file "a.txt" 10,
       FSEntry.dir "d1" [FSEntry.dir "d2" [FSEntry.dir "d3"
         [FSEntry.dir "d4" [FSEntry.dir "d5" [FSEntry.file "deep.txt" 3]]]]]]
      1 ∧
    fileEvents (StartContentChanges true (fun _ => false) "root"
      [FSEntry.file "a.txt" 10,
       FSEntry.dir "d1" [FSEntry.dir "d2" [FSEntry.dir "d3"
         [FSEntry.dir "d4" [FSEntry.dir "d5" [FSEntry.file "deep.txt" 3]]]]]]
      1) =
    filesOf "root"
      [FSEntry.file "a.txt" 10,
       FSEntry.dir "d1" [FSEntry.dir "d2" [FSEntry.dir "d3"
         [FSEntry.dir "d4" [FSEntry.dir "d5" [FSEntry.file "deep.txt" 3]]]]]] :=
  StartContentChanges_budget_indep true (fun _ => false) (fun _ => true)
    "root"
    [FSEntry.file "a.txt" 10,
     FSEntry.dir "d1" [FSEntry.dir "d2" [FSEntry.dir "d3"
       [FSEntry.dir "d4" [FSEntry.dir "d5" [FSEntry.file "deep.txt" 3]]]]]]
    1 1 (by simp [entriesOK])

/-- C4 (code evaluation at the failing input): a walker invoked with
`idWorker = 2` on a directory with one regular file emits the file-found
event with `workerId = 0`, not `2` — the composite literal at the send
site never sets the `workerId` field, so every emitted event carries the
zero value regardless of the emitting walker's id (the other three fields
are set from the entry). -/
theorem StartContentChanges_workerId_unset :
    StartContentChanges false (fun _ => true) "root"
      [FSEntry.file "f.txt" 7] 2 =
      [{ DirName := "root", FileName := "f.txt", FileSize := 7,
         workerId := 0 }] ∧
    (2 : Nat) ≠ 0 := by
  constructor
  · simp [StartContentChanges, walkEntries]
  · decide
